import Mathlib

/-!
# Verification of the newsagent frontend task/cache layer

A shallow embedding of the core logic of the newsagent repository
(`src/config/api.ts`, the SessionContext provider, and the
localStorage-based artifact cache used by the page components), together
with theorems settling the specification claims.

JSON values are modelled by the mutual inductive `JVal`/`JArr`/`JObj`
(numbers as integers; floating point is not exercised by any claim).
`JSON.stringify`/`JSON.parse` are modelled by an executable printer
(`jsonStringify`) and a fuel-indexed recursive-descent reader
(`jsonParse`); `jsonParse` returning `none` models `JSON.parse`
throwing a syntax error.
-/

/-!
JSON values: the data exchanged with the backend and stored in the
artifact cache.  `JArr`/`JObj` are unrolled list types so that all
recursion below is structural.
-/
mutual
inductive JVal where
  | null
  | boolean (b : Bool)
  | num (n : Int)
  | str (s : String)
  | arr (elems : JArr)
  | obj (fields : JObj)
inductive JArr where
  | nil
  | cons (hd : JVal) (tl : JArr)
inductive JObj where
  | onil
  | ocons (key : String) (val : JVal) (tl : JObj)
end

/-- JavaScript property access `v.k`: `none` models `undefined`
(also for access on a non-object, where JS yields `undefined` for the
data shapes exercised here). -/
def getField (v : JVal) (k : String) : Option JVal :=
  match v with
  | .obj fs => getFieldObj fs k
  | _ => none
where getFieldObj : JObj → String → Option JVal
  | .onil, _ => none
  | .ocons k2 v2 tl, k => if k2 = k then some v2 else getFieldObj tl k

/-- JavaScript truthiness of a JSON value (`undefined` is handled by
callers via `Option`). -/
def jsTruthy : JVal → Bool
  | .null => false
  | .boolean b => b
  | .num n => decide (n ≠ 0)
  | .str s => decide (s ≠ "")
  | .arr _ => true
  | .obj _ => true

/-- JavaScript `a || b` on JSON values. -/
def jsOr (a b : JVal) : JVal := if jsTruthy a then a else b

/-- `v.k === s` for a string literal `s` (JS strict equality: only a
string field can compare equal to a string literal). -/
def fieldIsStr (v : JVal) (k s : String) : Bool :=
  match getField v k with
  | some (.str t) => t = s
  | _ => false

/-- The character `{` (kept out of string/char literals). -/
def lbrace : Char := Char.ofNat 123

/-- The character `}` (kept out of string/char literals). -/
def rbrace : Char := Char.ofNat 125

/-! ## JSON printing (`JSON.stringify`) -/

/-- Decimal digit `d` (`0 ≤ d < 10`) as a character. -/
def digitChar (d : Nat) : Char := Char.ofNat (48 + d)

/-- Numeric value of a decimal digit character. -/
def digitVal (c : Char) : Nat := c.toNat - 48

/-- Is `c` a decimal digit? -/
def isDigitChar (c : Char) : Bool := 48 ≤ c.toNat && c.toNat ≤ 57

/-- Big-endian decimal digits of `n` (fuel-indexed helper). -/
def natDigitsAux : Nat → Nat → List Char
  | 0, _ => []
  | fuel+1, n => if n < 10 then [digitChar n] else natDigitsAux fuel (n / 10) ++ [digitChar (n % 10)]

/-- Big-endian decimal digits of `n`. -/
def natDigits (n : Nat) : List Char := natDigitsAux (n+1) n

/-- Decimal rendering of an integer, as `JSON.stringify` renders the
integral numbers modelled here. -/
def printNum (n : Int) : List Char :=
  if n < 0 then '-' :: natDigits n.natAbs else natDigits n.toNat

/-- String-body escaping: `JSON.stringify` escapes the quote and the
backslash (control characters do not occur in the values exercised). -/
def escChar (c : Char) : List Char :=
  if c = '"' then ['\\', '"']
  else if c = '\\' then ['\\', '\\']
  else [c]

/-- Escapes every character of a string body. -/
def escapeChars : List Char → List Char
  | [] => []
  | c :: cs => escChar c ++ escapeChars cs

/-- `JSON.stringify` of a string (with the surrounding quotes). -/
def printStr (s : String) : List Char := '"' :: escapeChars s.data ++ ['"']

mutual
/-- `JSON.stringify` (compact form, as used by the artifact cache). -/
def printJVal : JVal → List Char
  | .null => ['n', 'u', 'l', 'l']
  | .boolean true => ['t', 'r', 'u', 'e']
  | .boolean false => ['f', 'a', 'l', 's', 'e']
  | .num n => printNum n
  | .str s => printStr s
  | .arr es => '[' :: printElems es ++ [']']
  | .obj fs => lbrace :: printMembers fs ++ [rbrace]

/-- Array elements, comma-separated, without the surrounding brackets. -/
def printElems : JArr → List Char
  | .nil => []
  | .cons v .nil => printJVal v
  | .cons v (.cons w tl) => printJVal v ++ ',' :: printElems (.cons w tl)

/-- Object members, comma-separated, without the surrounding braces. -/
def printMembers : JObj → List Char
  | .onil => []
  | .ocons k v .onil => printStr k ++ ':' :: printJVal v
  | .ocons k v (.ocons k2 v2 tl) =>
      printStr k ++ ':' :: printJVal v ++ ',' :: printMembers (.ocons k2 v2 tl)
end

/-- `JSON.stringify` as a `String`-valued function. -/
def jsonStringify (v : JVal) : String := String.mk (printJVal v)

/-! ## JSON reading (`JSON.parse`) -/

/-- Escape-sequence decoding after a backslash. -/
def unescapeChar (c : Char) : Option Char :=
  if c = '"' then some '"'
  else if c = '\\' then some '\\'
  else if c = '/' then some '/'
  else if c = 'n' then some '\n'
  else if c = 't' then some '\t'
  else if c = 'r' then some '\r'
  else if c = 'b' then some (Char.ofNat 8)
  else if c = 'f' then some (Char.ofNat 12)
  else none

/-- Reads a string body up to (and consuming) the closing quote;
returns the decoded content and the remaining input. -/
def readStringBody : List Char → Option (List Char × List Char)
  | [] => none
  | c :: cs =>
    if c = '"' then some ([], cs)
    else if c = '\\' then
      match cs with
      | [] => none
      | d :: cs2 =>
        match unescapeChar d with
        | none => none
        | some ch =>
          match readStringBody cs2 with
          | none => none
          | some (content, rest) => some (ch :: content, rest)
    else
      match readStringBody cs with
      | none => none
      | some (content, rest) => some (c :: content, rest)

/-- Consumes a maximal run of decimal digits, folding them onto `acc`. -/
def readDigits : Nat → List Char → Nat × List Char
  | acc, [] => (acc, [])
  | acc, c :: cs => if isDigitChar c then readDigits (acc * 10 + digitVal c) cs else (acc, c :: cs)

mutual
/-- Recursive-descent JSON value reader (fuel-indexed; the top level
supplies fuel exceeding the input length, which always suffices). -/
def readVal : Nat → List Char → Option (JVal × List Char)
  | 0, _ => none
  | _+1, [] => none
  | fuel+1, c :: cs =>
    if c = 'n' then
      match cs with
      | 'u' :: 'l' :: 'l' :: rest => some (.null, rest)
      | _ => none
    else if c = 't' then
      match cs with
      | 'r' :: 'u' :: 'e' :: rest => some (.boolean true, rest)
      | _ => none
    else if c = 'f' then
      match cs with
      | 'a' :: 'l' :: 's' :: 'e' :: rest => some (.boolean false, rest)
      | _ => none
    else if c = '"' then
      match readStringBody cs with
      | none => none
      | some (content, rest) => some (.str (String.mk content), rest)
    else if c = '[' then
      match cs with
      | [] => none
      | d :: ds =>
        if d = ']' then some (.arr .nil, ds)
        else
          match readElems fuel (d :: ds) with
          | none => none
          | some (es, rest) => some (.arr es, rest)
    else if c = lbrace then
      match cs with
      | [] => none
      | d :: ds =>
        if d = rbrace then some (.obj .onil, ds)
        else
          match readMembers fuel (d :: ds) with
          | none => none
          | some (fs, rest) => some (.obj fs, rest)
    else if c = '-' then
      match cs with
      | [] => none
      | d :: ds =>
        if isDigitChar d then
          some (.num (-(((readDigits (digitVal d) ds).1 : Nat) : Int)), (readDigits (digitVal d) ds).2)
        else none
    else if isDigitChar c then
      some (.num (((readDigits (digitVal c) cs).1 : Nat) : Int), (readDigits (digitVal c) cs).2)
    else none

/-- Reads comma-separated array elements and the closing bracket. -/
def readElems : Nat → List Char → Option (JArr × List Char)
  | 0, _ => none
  | fuel+1, input =>
    match readVal fuel input with
    | none => none
    | some (v, rest) =>
      match rest with
      | [] => none
      | d :: rest2 =>
        if d = ',' then
          match readElems fuel rest2 with
          | none => none
          | some (vs, rest3) => some (.cons v vs, rest3)
        else if d = ']' then some (.cons v .nil, rest2)
        else none

/-- Reads comma-separated object members and the closing brace. -/
def readMembers : Nat → List Char → Option (JObj × List Char)
  | 0, _ => none
  | fuel+1, input =>
    match input with
    | '"' :: cs =>
      (match readStringBody cs with
      | none => none
      | some (key, rest) =>
        match rest with
        | ':' :: rest2 =>
          (match readVal fuel rest2 with
          | none => none
          | some (v, rest3) =>
            match rest3 with
            | [] => none
            | d :: rest4 =>
              if d = ',' then
                match readMembers fuel rest4 with
                | none => none
                | some (fs, rest5) => some (.ocons (String.mk key) v fs, rest5)
              else if d = rbrace then some (.ocons (String.mk key) v .onil, rest4)
              else none)
        | _ => none)
    | _ => none
end

/-- `JSON.parse`: `none` models a thrown syntax error.  The whole input
must be consumed. -/
def jsonParse (s : String) : Option JVal :=
  match readVal (s.data.length + 1) s.data with
  | some (v, []) => some v
  | _ => none

/-! ## Round-trip: `jsonParse (jsonStringify v) = some v` -/

/-- One step of decimal accumulation, as performed by `readDigits`. -/
def digitStep (a : Nat) (c : Char) : Nat := a * 10 + digitVal c

/-- Within the first character, `rest` does not continue a digit run. -/
def notDigitStart : List Char → Prop
  | [] => True
  | c :: _ => isDigitChar c = false

theorem isDigitChar_digitChar {d : Nat} (h : d < 10) : isDigitChar (digitChar d) = true := by
  interval_cases d <;> decide

theorem digitVal_digitChar {d : Nat} (h : d < 10) : digitVal (digitChar d) = d := by
  interval_cases d <;> decide

theorem readDigits_append (ds : List Char) :
    ∀ (acc : Nat) (rest : List Char), (∀ c ∈ ds, isDigitChar c = true) → notDigitStart rest →
      readDigits acc (ds ++ rest) = (List.foldl digitStep acc ds, rest) := by
  induction ds with
  | nil =>
      intro acc rest _ hrest
      cases rest with
      | nil => rfl
      | cons c cs => simp only [List.nil_append, List.foldl_nil, readDigits, notDigitStart] at *
                     simp [hrest]
  | cons c cs ih =>
      intro acc rest hds hrest
      have hc : isDigitChar c = true := hds c (List.mem_cons_self c cs)
      simp only [List.cons_append, readDigits, hc, if_true, List.foldl_cons]
      exact ih _ rest (fun x hx => hds x (List.mem_cons_of_mem c hx)) hrest

theorem natDigitsAux_all_digits : ∀ (fuel n : Nat), ∀ c ∈ natDigitsAux fuel n, isDigitChar c = true := by
  intro fuel
  induction fuel with
  | zero => intro n c hc; simp [natDigitsAux] at hc
  | succ fuel ih =>
      intro n c hc
      by_cases h : n < 10
      · simp only [natDigitsAux, h, if_true, List.mem_singleton] at hc
        subst hc; exact isDigitChar_digitChar h
      · simp only [natDigitsAux, h, if_false, List.mem_append, List.mem_singleton] at hc
        rcases hc with hc | hc
        · exact ih _ c hc
        · subst hc; exact isDigitChar_digitChar (Nat.mod_lt _ (by norm_num))

theorem foldl_natDigitsAux : ∀ (fuel n acc : Nat), n < fuel →
    List.foldl digitStep acc (natDigitsAux fuel n) = acc * 10 ^ (natDigitsAux fuel n).length + n := by
  intro fuel
  induction fuel with
  | zero => intro n acc h; omega
  | succ fuel ih =>
      intro n acc h
      by_cases h10 : n < 10
      · simp only [natDigitsAux, h10, if_true, List.foldl_cons, List.foldl_nil, List.length_cons,
          List.length_nil, digitStep, digitVal_digitChar h10]
        ring
      · have hdiv : n / 10 < fuel := by
          have h1 : n / 10 < n := Nat.div_lt_self (by omega) (by norm_num)
          omega
        simp only [natDigitsAux, h10, if_false, List.foldl_append, List.foldl_cons,
          List.foldl_nil, List.length_append, List.length_cons, List.length_nil,
          ih _ acc hdiv, digitStep, digitVal_digitChar (Nat.mod_lt n (by norm_num : (0:Nat) < 10))]
        have hmod := Nat.div_add_mod n 10
        ring_nf
        omega

theorem foldl_natDigits (n : Nat) : List.foldl digitStep 0 (natDigits n) = n := by
  have := foldl_natDigitsAux (n+1) n 0 (by omega)
  simpa [natDigits] using this

theorem natDigits_ne_nil (n : Nat) : natDigits n ≠ [] := by
  unfold natDigits natDigitsAux
  by_cases h : n < 10 <;> simp [h]

theorem printNum_ne_nil (n : Int) : printNum n ≠ [] := by
  unfold printNum
  by_cases h : n < 0 <;> simp [h, natDigits_ne_nil]

mutual
/-- Node count of a JSON value: a lower bound for the reader fuel. -/
def jsize : JVal → Nat
  | .arr es => 1 + jsizeArr es
  | .obj fs => 1 + jsizeObj fs
  | _ => 1
/-- Node count of array elements. -/
def jsizeArr : JArr → Nat
  | .nil => 0
  | .cons v vs => 1 + jsize v + jsizeArr vs
/-- Node count of object members. -/
def jsizeObj : JObj → Nat
  | .onil => 0
  | .ocons _ v fs => 1 + jsize v + jsizeObj fs
end

mutual
theorem jsize_le_print : ∀ v : JVal, jsize v ≤ (printJVal v).length
  | .null => by simp [jsize, printJVal]
  | .boolean true => by simp [jsize, printJVal]
  | .boolean false => by simp [jsize, printJVal]
  | .num n => by
      have h := printNum_ne_nil n
      have h1 : 1 ≤ (printNum n).length := by
        cases hp : printNum n with
        | nil => exact absurd hp h
        | cons a b => simp
      simpa [jsize, printJVal] using h1
  | .str s => by simp [jsize, printJVal, printStr]
  | .arr es => by
      have h := jsizeArr_le_print es
      simp only [jsize, printJVal, List.length_cons, List.length_append, List.length_nil]
      omega
  | .obj fs => by
      have h := jsizeObj_le_print fs
      simp only [jsize, printJVal, List.length_cons, List.length_append, List.length_nil]
      omega

theorem jsizeArr_le_print : ∀ es : JArr, jsizeArr es ≤ (printElems es).length + 1
  | .nil => by simp [jsizeArr, printElems]
  | .cons v .nil => by
      have h := jsize_le_print v
      simp only [jsizeArr, printElems]
      omega
  | .cons v (.cons w tl) => by
      have h1 := jsize_le_print v
      have h2 := jsizeArr_le_print (.cons w tl)
      have e2 : jsizeArr (JArr.cons w tl) = 1 + jsize w + jsizeArr tl := rfl
      simp only [jsizeArr, printElems, List.length_append, List.length_cons]
      omega

theorem jsizeObj_le_print : ∀ fs : JObj, jsizeObj fs ≤ (printMembers fs).length + 1
  | .onil => by simp [jsizeObj, printMembers]
  | .ocons k v .onil => by
      have h := jsize_le_print v
      simp only [jsizeObj, printMembers, List.length_append, List.length_cons, printStr]
      omega
  | .ocons k v (.ocons k2 v2 tl) => by
      have h1 := jsize_le_print v
      have h2 := jsizeObj_le_print (.ocons k2 v2 tl)
      have e2 : jsizeObj (JObj.ocons k2 v2 tl) = 1 + jsize v2 + jsizeObj tl := rfl
      simp only [jsizeObj, printMembers, List.length_append, List.length_cons, printStr]
      omega
end

theorem readStringBody_print (cs : List Char) :
    ∀ rest : List Char, readStringBody (escapeChars cs ++ '"' :: rest) = some (cs, rest) := by
  induction cs with
  | nil =>
      intro rest
      show readStringBody ('"' :: rest) = some ([], rest)
      rw [readStringBody.eq_def]
      simp
  | cons c cs ih =>
      intro rest
      by_cases h1 : c = '"'
      · subst h1
        have he : escapeChars ('"' :: cs) ++ '"' :: rest
            = '\\' :: '"' :: (escapeChars cs ++ '"' :: rest) := by
          simp [escapeChars, escChar]
        rw [he, readStringBody.eq_def]
        simp [unescapeChar, ih rest]
      · by_cases h2 : c = '\\'
        · subst h2
          have he : escapeChars ('\\' :: cs) ++ '"' :: rest
              = '\\' :: '\\' :: (escapeChars cs ++ '"' :: rest) := by
            simp [escapeChars, escChar]
          rw [he, readStringBody.eq_def]
          simp [unescapeChar, ih rest]
        · have he : escapeChars (c :: cs) ++ '"' :: rest
              = c :: (escapeChars cs ++ '"' :: rest) := by
            simp [escapeChars, escChar, h1, h2]
          rw [he, readStringBody.eq_def]
          simp [h1, h2, ih rest]

/-- A continuation before which a JSON value can end: empty input or a
separator/closer character.  (A digit here could wrongly extend a
numeric literal.) -/
def restOkB : List Char → Bool
  | [] => true
  | c :: _ => c = ',' || c = ']' || c = rbrace

theorem restOkB_notDigit : ∀ {rest : List Char}, restOkB rest = true → notDigitStart rest := by
  intro rest h
  cases rest with
  | nil => trivial
  | cons c cs =>
      simp only [restOkB, Bool.or_eq_true, decide_eq_true_eq] at h
      rcases h with (rfl | rfl) | rfl
      · show isDigitChar ',' = false
        decide
      · show isDigitChar ']' = false
        decide
      · show isDigitChar rbrace = false
        decide

theorem isDigitChar_not_special {c : Char} (h : isDigitChar c = true) :
    c ≠ 'n' ∧ c ≠ 't' ∧ c ≠ 'f' ∧ c ≠ '"' ∧ c ≠ '[' ∧ c ≠ lbrace ∧ c ≠ '-' ∧ c ≠ ']' ∧ c ≠ rbrace := by
  refine ⟨?_, ?_, ?_, ?_, ?_, ?_, ?_, ?_, ?_⟩ <;> (rintro rfl; revert h; decide)

theorem printJVal_head (v : JVal) :
    ∃ h t, printJVal v = h :: t ∧ h ≠ ']' ∧ h ≠ rbrace := by
  cases v with
  | null => exact ⟨'n', _, rfl, by decide, by decide⟩
  | boolean b =>
      cases b
      · exact ⟨'f', _, rfl, by decide, by decide⟩
      · exact ⟨'t', _, rfl, by decide, by decide⟩
  | num n =>
      have hp : printJVal (.num n) = printNum n := rfl
      rw [hp]
      unfold printNum
      by_cases hn : n < 0
      · rw [if_pos hn]
        exact ⟨'-', _, rfl, by decide, by decide⟩
      · rw [if_neg hn]
        cases hd : natDigits n.toNat with
        | nil => exact absurd hd (natDigits_ne_nil _)
        | cons a b =>
            have ha : isDigitChar a = true := by
              have hall := natDigitsAux_all_digits (n.toNat + 1) n.toNat
              rw [show natDigitsAux (n.toNat + 1) n.toNat = natDigits n.toNat from rfl, hd] at hall
              exact hall a (List.mem_cons_self a b)
            obtain ⟨_, _, _, _, _, _, _, h8, h9⟩ := isDigitChar_not_special ha
            exact ⟨a, b, rfl, h8, h9⟩
  | str s => exact ⟨'"', _, rfl, by decide, by decide⟩
  | arr es => exact ⟨'[', _, rfl, by decide, by decide⟩
  | obj fs => exact ⟨lbrace, _, rfl, by decide, by decide⟩

theorem printElems_cons_ex (v : JVal) (tl : JArr) :
    ∃ X, printElems (.cons v tl) = printJVal v ++ X := by
  cases tl with
  | nil => exact ⟨[], by simp [printElems]⟩
  | cons w tl2 => exact ⟨',' :: printElems (.cons w tl2), rfl⟩

theorem jsize_pos (v : JVal) : 1 ≤ jsize v := by
  cases v <;> simp [jsize]

theorem printMembers_cons_ex (k : String) (v : JVal) (tl : JObj) :
    ∃ X, printMembers (.ocons k v tl) = printStr k ++ X := by
  cases tl with
  | onil => exact ⟨':' :: printJVal v, rfl⟩
  | ocons k2 v2 tl2 =>
      exact ⟨':' :: printJVal v ++ ',' :: printMembers (.ocons k2 v2 tl2),
        by simp [printMembers]⟩


theorem readVal_print_all : ∀ fuel : Nat,
    (∀ (v : JVal) (rest : List Char), jsize v ≤ fuel → restOkB rest = true →
      readVal fuel (printJVal v ++ rest) = some (v, rest)) ∧
    (∀ (es : JArr) (rest : List Char), es ≠ .nil → jsizeArr es ≤ fuel →
      readElems fuel (printElems es ++ ']' :: rest) = some (es, rest)) ∧
    (∀ (fs : JObj) (rest : List Char), fs ≠ .onil → jsizeObj fs ≤ fuel →
      readMembers fuel (printMembers fs ++ rbrace :: rest) = some (fs, rest)) := by
  intro fuel
  induction fuel with
  | zero =>
      refine ⟨fun v rest hs _ => absurd hs (by have := jsize_pos v; omega), fun es rest hne hs => ?_,
        fun fs rest hne hs => ?_⟩
      · cases es with
        | nil => exact absurd rfl hne
        | cons v tl =>
            have he : jsizeArr (.cons v tl) = 1 + jsize v + jsizeArr tl := rfl
            omega
      · cases fs with
        | onil => exact absurd rfl hne
        | ocons k v tl =>
            have he : jsizeObj (.ocons k v tl) = 1 + jsize v + jsizeObj tl := rfl
            omega
  | succ fuel ih =>
      obtain ⟨ih1, ih2, ih3⟩ := ih
      refine ⟨?_, ?_, ?_⟩
      · -- values
        intro v rest hs hrest
        cases v with
        | null =>
            simp only [printJVal, List.cons_append, List.nil_append, readVal]
            simp
        | boolean b =>
            cases b
            · simp only [printJVal, List.cons_append, List.nil_append, readVal]
              simp
            · simp only [printJVal, List.cons_append, List.nil_append, readVal]
              simp
        | num n =>
            simp only [printJVal]
            unfold printNum
            by_cases hn : n < 0
            · rw [if_pos hn]
              cases hd : natDigits n.natAbs with
              | nil => exact absurd hd (natDigits_ne_nil _)
              | cons a b =>
                  have hall := natDigitsAux_all_digits (n.natAbs + 1) n.natAbs
                  rw [show natDigitsAux (n.natAbs + 1) n.natAbs = natDigits n.natAbs from rfl,
                    hd] at hall
                  have ha : isDigitChar a = true := hall a (List.mem_cons_self a b)
                  have hb : ∀ x ∈ b, isDigitChar x = true :=
                    fun x hx => hall x (List.mem_cons_of_mem a hx)
                  simp only [List.cons_append, readVal]
                  rw [readDigits_append b (digitVal a) rest hb (restOkB_notDigit hrest)]
                  have hfold : List.foldl digitStep (digitVal a) b = n.natAbs := by
                    have h0 := foldl_natDigits n.natAbs
                    rw [hd, List.foldl_cons] at h0
                    simpa [digitStep] using h0
                  have habs : (-((n.natAbs : Nat) : Int)) = n := by omega
                  have habs2 : -|n| = n := by rw [abs_of_neg hn, neg_neg]
                  simp [ha, hfold, habs, habs2,
                    (show ¬(('-' : Char) = lbrace) by decide)]
            · rw [if_neg hn]
              cases hd : natDigits n.toNat with
              | nil => exact absurd hd (natDigits_ne_nil _)
              | cons a b =>
                  have hall := natDigitsAux_all_digits (n.toNat + 1) n.toNat
                  rw [show natDigitsAux (n.toNat + 1) n.toNat = natDigits n.toNat from rfl,
                    hd] at hall
                  have ha : isDigitChar a = true := hall a (List.mem_cons_self a b)
                  have hb : ∀ x ∈ b, isDigitChar x = true :=
                    fun x hx => hall x (List.mem_cons_of_mem a hx)
                  obtain ⟨e1, e2, e3, e4, e5, e6, e7, e8, e9⟩ := isDigitChar_not_special ha
                  simp only [List.cons_append, readVal]
                  rw [readDigits_append b (digitVal a) rest hb (restOkB_notDigit hrest)]
                  have hfold : List.foldl digitStep (digitVal a) b = n.toNat := by
                    have h0 := foldl_natDigits n.toNat
                    rw [hd, List.foldl_cons] at h0
                    simpa [digitStep] using h0
                  have htn : (((n.toNat : Nat) : Int)) = n := Int.toNat_of_nonneg (by omega)
                  simp [e1, e2, e3, e4, e5, e6, e7, ha, hfold, htn]
        | str s =>
            simp only [printJVal, printStr, List.cons_append, List.append_assoc,
              List.singleton_append, readVal]
            simp [readStringBody_print s.data rest]
        | arr es =>
            cases es with
            | nil =>
                simp only [printJVal, printElems, List.nil_append, List.cons_append,
                  List.singleton_append, readVal]
                simp
            | cons v tl =>
                have hsz : jsizeArr (.cons v tl) ≤ fuel := by
                  have h1 : jsize (.arr (.cons v tl)) = 1 + jsizeArr (.cons v tl) := rfl
                  omega
                obtain ⟨X, hX⟩ := printElems_cons_ex v tl
                obtain ⟨h, t, hv, hne1, hne2⟩ := printJVal_head v
                have hinput : printJVal (.arr (.cons v tl)) ++ rest
                    = '[' :: (printElems (.cons v tl) ++ ']' :: rest) := by
                  simp only [printJVal, List.cons_append, List.append_assoc,
                    List.singleton_append, List.nil_append]
                rw [hinput]
                obtain ⟨t2, ht2⟩ : ∃ t2, printElems (.cons v tl) ++ ']' :: rest = h :: t2 :=
                  ⟨t ++ X ++ ']' :: rest, by rw [hX, hv]; simp⟩
                have hih := ih2 (.cons v tl) rest (by simp) hsz
                rw [ht2] at hih
                rw [ht2]
                simp only [readVal]
                simp [hne1, hih]
        | obj fs =>
            have dn : ¬(lbrace = 'n') := by decide
            have dt : ¬(lbrace = 't') := by decide
            have df : ¬(lbrace = 'f') := by decide
            have dq : ¬(lbrace = '"') := by decide
            have db : ¬(lbrace = '[') := by decide
            cases fs with
            | onil =>
                simp only [printJVal, printMembers, List.nil_append, List.cons_append,
                  List.singleton_append, readVal]
                simp [dn, dt, df, dq, db]
            | ocons k v tl =>
                have hsz : jsizeObj (.ocons k v tl) ≤ fuel := by
                  have h1 : jsize (.obj (.ocons k v tl)) = 1 + jsizeObj (.ocons k v tl) := rfl
                  omega
                obtain ⟨X, hX⟩ := printMembers_cons_ex k v tl
                have hinput : printJVal (.obj (.ocons k v tl)) ++ rest
                    = lbrace :: (printMembers (.ocons k v tl) ++ rbrace :: rest) := by
                  simp only [printJVal, List.cons_append, List.append_assoc,
                    List.singleton_append, List.nil_append]
                rw [hinput]
                obtain ⟨t2, ht2⟩ : ∃ t2, printMembers (.ocons k v tl) ++ rbrace :: rest
                    = '"' :: t2 :=
                  ⟨escapeChars k.data ++ ['"'] ++ X ++ rbrace :: rest, by rw [hX]; simp [printStr]⟩
                have hih := ih3 (.ocons k v tl) rest (by simp) hsz
                rw [ht2] at hih
                rw [ht2]
                simp only [readVal]
                simp [dn, dt, df, dq, db, hih, (show ¬(('"' : Char) = rbrace) by decide)]
      · -- array elements
        intro es rest hne hs
        cases es with
        | nil => exact absurd rfl hne
        | cons v tl =>
            have hsa : jsizeArr (.cons v tl) = 1 + jsize v + jsizeArr tl := rfl
            cases tl with
            | nil =>
                have hszv : jsize v ≤ fuel := by
                  have hz : jsizeArr (JArr.nil) = 0 := rfl
                  omega
                simp only [printElems, readElems]
                rw [ih1 v (']' :: rest) hszv (by simp [restOkB])]
                simp
            | cons w tl2 =>
                have hsb : jsizeArr (.cons w tl2) = 1 + jsize w + jsizeArr tl2 := rfl
                have hszv : jsize v ≤ fuel := by omega
                have hsz2 : jsizeArr (.cons w tl2) ≤ fuel := by omega
                have hinput : printElems (.cons v (.cons w tl2)) ++ ']' :: rest
                    = printJVal v ++ ',' :: (printElems (.cons w tl2) ++ ']' :: rest) := by
                  simp only [printElems, List.cons_append, List.append_assoc]
                rw [hinput]
                simp only [readElems]
                rw [ih1 v (',' :: (printElems (.cons w tl2) ++ ']' :: rest)) hszv
                  (by simp [restOkB])]
                simp [ih2 (.cons w tl2) rest (by simp) hsz2]
      · -- object members
        intro fs rest hne hs
        cases fs with
        | onil => exact absurd rfl hne
        | ocons k v tl =>
            have hso : jsizeObj (.ocons k v tl) = 1 + jsize v + jsizeObj tl := rfl
            cases tl with
            | onil =>
                have hszv : jsize v ≤ fuel := by
                  have hz : jsizeObj (JObj.onil) = 0 := rfl
                  omega
                have hinput : printMembers (.ocons k v .onil) ++ rbrace :: rest
                    = '"' :: (escapeChars k.data ++ '"' :: (':' ::
                        (printJVal v ++ rbrace :: rest))) := by
                  simp only [printMembers, printStr, List.cons_append, List.append_assoc,
                    List.singleton_append, List.nil_append]
                rw [hinput]
                simp only [readMembers]
                rw [readStringBody_print k.data (':' :: (printJVal v ++ rbrace :: rest))]
                simp [ih1 v (rbrace :: rest) hszv (by simp [restOkB]),
                  (show ¬(rbrace = ',') by decide)]
            | ocons k2 v2 tl2 =>
                have hsb : jsizeObj (.ocons k2 v2 tl2) = 1 + jsize v2 + jsizeObj tl2 := rfl
                have hszv : jsize v ≤ fuel := by omega
                have hsz2 : jsizeObj (.ocons k2 v2 tl2) ≤ fuel := by omega
                have hinput : printMembers (.ocons k v (.ocons k2 v2 tl2)) ++ rbrace :: rest
                    = '"' :: (escapeChars k.data ++ '"' :: (':' :: (printJVal v ++ ',' ::
                        (printMembers (.ocons k2 v2 tl2) ++ rbrace :: rest)))) := by
                  simp only [printMembers, printStr, List.cons_append, List.append_assoc,
                    List.singleton_append, List.nil_append]
                rw [hinput]
                simp only [readMembers]
                rw [readStringBody_print k.data (':' :: (printJVal v ++ ',' ::
                  (printMembers (.ocons k2 v2 tl2) ++ rbrace :: rest)))]
                simp [ih1 v (',' :: (printMembers (.ocons k2 v2 tl2) ++ rbrace :: rest)) hszv
                    (by simp [restOkB]),
                  ih3 (.ocons k2 v2 tl2) rest (by simp) hsz2]

theorem jsonParse_stringify (v : JVal) : jsonParse (jsonStringify v) = some v := by
  unfold jsonParse jsonStringify
  have hd : (String.mk (printJVal v)).data = printJVal v := rfl
  rw [hd]
  have h1 := (readVal_print_all ((printJVal v).length + 1)).1 v []
    (by have := jsize_le_print v; omega) rfl
  rw [List.append_nil] at h1
  rw [h1]

/-! ## Artifact cache (`localStorage`, news-discoverer / classifier / exporter pages) -/

/-- The tab's persisted key/value store (`localStorage`); `none` models
an absent key (JS `null` from `getItem`). -/
def Store := String → Option String

/-- `localStorage.setItem`. -/
def setItem (s : Store) (k v : String) : Store :=
  fun k2 => if k2 = k then some v else s k2

/-- `localStorage.getItem`. -/
def getItem (s : Store) (k : String) : Option String := s k

/-- The store with nothing in it. -/
def emptyStore : Store := fun _ => none

/-- Cache key of the discovered article list. -/
def articlesKey : String := "bynd:last_discovered_articles"

/-- Cache key of the query that produced the list. -/
def queryKey : String := "bynd:last_discovered_query"

/-- Cache key of the discovery timestamp. -/
def atKey : String := "bynd:last_discovered_at"

/-- The persistence step of `handleDiscover` (news-discoverer page):
`const articles = Array.isArray(data?.articles) ? data.articles : []`,
then `setItem` of the serialized articles, the query, and an ISO
timestamp. -/
def publishDiscovered (s : Store) (data : JVal) (query now : String) : Store :=
  let articles : JArr :=
    match getField data "articles" with
    | some (.arr es) => es
    | _ => .nil
  setItem (setItem (setItem s articlesKey (jsonStringify (.arr articles))) queryKey query)
    atKey now

/-- `loadFromDiscoverer` (content-classifier and data-exporter pages):
reads the stored article list.  `none` models every path on which no
articles are loaded: absent key, empty raw string (falsy, so the code
substitutes `[]`), `JSON.parse` throwing (caught by the surrounding
try/catch), a non-array value, or an empty array — the last three all
hit the `!Array.isArray(arr) || arr.length === 0` guard. -/
def loadFromDiscoverer (s : Store) : Option JArr :=
  match getItem s articlesKey with
  | none => none
  | some raw =>
    if raw = "" then none
    else
      match jsonParse raw with
      | none => none
      | some (.arr .nil) => none
      | some (.arr (.cons v tl)) => some (.cons v tl)
      | some _ => none

/-! ## Request client (`apiCall`) -/

/-- The failure kinds of the request/task layer: `transport` models the
`API Error: <status> <statusText>` exception thrown on a non-ok
response, `decode` a rejected `response.json()`, and `taskFailed` the
`new Error(status.error || 'Task failed')` thrown by the poll loop. -/
inductive ApiError where
  | transport (status : Nat) (statusText : String)
  | decode
  | taskFailed (message : JVal)

/-- An HTTP response as observed by `apiCall`: status line plus the
decoded JSON body, where `none` models a body that is not valid JSON
(so `response.json()` rejects). -/
structure HttpResponse where
  status : Nat
  statusText : String
  body : Option JVal

/-- `Response.ok`: status in the inclusive range 200–299. -/
def responseOk (r : HttpResponse) : Bool := 200 ≤ r.status && r.status ≤ 299

/-- The response handling of `apiCall`:
`if (!response.ok) throw new Error(...); return response.json()`. -/
def apiCall (r : HttpResponse) : Except ApiError JVal :=
  if responseOk r = false then .error (.transport r.status r.statusText)
  else
    match r.body with
    | some v => .ok v
    | none => .error .decode

/-- The caller-controlled part of the `fetch` init object
(`RequestInit`), as used by `apiCall`. -/
structure RequestInit where
  method : Option String := none
  headers : Option (List (String × String)) := none
  body : Option String := none

/-- The inner headers object literal built inside `apiCall`'s `fetch`
call: `('Content-Type': 'application/json', ...options.headers)`. -/
def mergedHeaders (options : RequestInit) : List (String × String) :=
  ("Content-Type", "application/json") :: options.headers.getD []

/-- The headers `fetch` actually receives.  The init literal is
`( headers: (...merged...), ...options )`: the trailing `...options`
spread is evaluated after the `headers:` entry, so whenever the caller
supplied a `headers` key it replaces the merged object wholesale; the
merge only survives when `options` has no `headers` key. -/
def fetchHeaders (options : RequestInit) : List (String × String) :=
  match options.headers with
  | some hs => hs
  | none => mergedHeaders options

/-- Key lookup in a JS object literal's entry list (later entries win). -/
def lookupHeader (hs : List (String × String)) (k : String) : Option String :=
  hs.foldl (fun acc p => if p.1 = k then some p.2 else acc) none

/-! ## Task poller (`executeTask` / `pollForResults`) -/

/-- The backend as seen through `apiCall`: the response to the initial
POST, the response to the `n`-th task-status GET, and the response to
the task-result GET. -/
structure Backend where
  submitResponse : Except ApiError JVal
  statusResponse : Nat → Except ApiError JVal
  resultResponse : Except ApiError JVal

/-- Externally observable steps of one `executeTask` run. -/
inductive Event where
  | submitCall (endpoint : String) (payload : JVal)
  | statusCall (taskId : String) (response : Except ApiError JVal)
  | wait (ms : Nat)
  | resultCall (taskId : String)

/-- Result of running `executeTask` for a bounded number of poll
attempts: a terminal value, a thrown error, or `polling` when the loop
is still running after exhausting the attempt bound (the source loop
has no bound of its own). -/
inductive TaskOutcome where
  | ok (v : JVal)
  | err (e : ApiError)
  | polling

/-- JS string coercion of the `task_id` value as interpolated into the
status/result URLs; only string identifiers occur in the modelled
protocol. -/
def taskIdString : JVal → String
  | .str s => s
  | _ => ""

/-- `status.error || 'Task failed'`. -/
def failMessage (r : JVal) : JVal :=
  jsOr ((getField r "error").getD .null) (.str "Task failed")

/-- The recursive poll loop of `executeTask`.  `attempt` numbers the
status calls; `fuel` bounds how many more attempts we unroll (the
source has no such bound — `fuel` only makes the definition total, and
exhausting it yields `.polling`, i.e. the loop is still running).
Returns the outcome together with the trace of observable events. -/
def pollForResults (b : Backend) (taskId : String) : Nat → Nat → TaskOutcome × List Event
  | _, 0 => (.polling, [])
  | attempt, fuel+1 =>
    match b.statusResponse attempt with
    | .error e => (.err e, [.statusCall taskId (.error e)])
    | .ok status =>
      if fieldIsStr status "status" "completed" then
        match b.resultResponse with
        | .ok v => (.ok v, [.statusCall taskId (.ok status), .resultCall taskId])
        | .error e => (.err e, [.statusCall taskId (.ok status), .resultCall taskId])
      else if fieldIsStr status "status" "failed" then
        (.err (.taskFailed (failMessage status)), [.statusCall taskId (.ok status)])
      else
        let next := pollForResults b taskId (attempt+1) fuel
        (next.1, .statusCall taskId (.ok status) :: .wait 2000 :: next.2)

/-- `executeTask`: POST the payload, then branch on
`initialResponse.task_id` — poll when the field is truthy, otherwise
return the initial response unchanged. -/
def executeTask (b : Backend) (endpoint : String) (payload : JVal) (fuel : Nat) :
    TaskOutcome × List Event :=
  match b.submitResponse with
  | .error e => (.err e, [.submitCall endpoint payload])
  | .ok initialResponse =>
    match getField initialResponse "task_id" with
    | some tid =>
      if jsTruthy tid then
        let poll := pollForResults b (taskIdString tid) 0 fuel
        (poll.1, .submitCall endpoint payload :: poll.2)
      else (.ok initialResponse, [.submitCall endpoint payload])
    | none => (.ok initialResponse, [.submitCall endpoint payload])

/-- Is the event a task-status call? -/
def isStatusEvent : Event → Bool
  | .statusCall _ _ => true
  | _ => false

/-- Is the event a task-result call? -/
def isResultEvent : Event → Bool
  | .resultCall _ => true
  | _ => false

/-- Is the event a status call whose response reported `completed`? -/
def isCompletedStatus : Event → Bool
  | .statusCall _ (.ok r) => fieldIsStr r "status" "completed"
  | _ => false

/-- Number of task-status calls in a trace. -/
def countStatusCalls (tr : List Event) : Nat := (tr.filter isStatusEvent).length

/-- Every task-result call is preceded by an observed `completed`
status response. -/
def noResultBeforeCompleted (tr : List Event) : Prop :=
  ∀ (i : Nat) (tid : String), tr[i]? = some (Event.resultCall tid) →
    ∃ j, j < i ∧ ∃ e, tr[j]? = some e ∧ isCompletedStatus e = true

/-- Every status call after the first is immediately preceded by the
fixed 2000 ms wait. -/
def waitBeforeRepoll (tr : List Event) : Prop :=
  ∀ (i : Nat) (tid : String) (r : Except ApiError JVal),
    tr[i+1]? = some (Event.statusCall tid r) → tr[i]? = some (Event.wait 2000)

/-- Did this status response report the given status string? -/
def respStatusIs (resp : Except ApiError JVal) (st : String) : Bool :=
  match resp with
  | .ok r => fieldIsStr r "status" st
  | .error _ => false

/-- A status response that keeps the loop polling: a successful call
reporting neither `completed` nor `failed`. -/
def respNonTerminal (resp : Except ApiError JVal) : Bool :=
  match resp with
  | .ok r => !fieldIsStr r "status" "completed" && !fieldIsStr r "status" "failed"
  | .error _ => false

/-- The trace produced by `k` consecutive non-terminal poll attempts
starting at `attempt`. -/
def runTrace (b : Backend) (taskId : String) : Nat → Nat → List Event
  | _, 0 => []
  | attempt, k+1 =>
      .statusCall taskId (b.statusResponse attempt) :: .wait 2000 ::
        runTrace b taskId (attempt+1) k

/-- Outcome of the result fetch made after a `completed` status. -/
def resultOutcome (b : Backend) : TaskOutcome :=
  match b.resultResponse with
  | .ok v => .ok v
  | .error e => .err e

theorem countStatusCalls_runTrace (b : Backend) (tid : String) :
    ∀ (k attempt : Nat), countStatusCalls (runTrace b tid attempt k) = k := by
  intro k
  induction k with
  | zero => intro attempt; rfl
  | succ k ih =>
      intro attempt
      simp only [countStatusCalls, runTrace, List.filter_cons, isStatusEvent]
      have h1 := ih (attempt + 1)
      simp only [countStatusCalls] at h1
      simp [h1]

theorem poll_error_step (b : Backend) (tid : String) (attempt f : Nat) (e : ApiError)
    (hsr : b.statusResponse attempt = .error e) :
    pollForResults b tid attempt (f + 1) = (.err e, [.statusCall tid (.error e)]) := by
  simp only [pollForResults]
  rw [hsr]

theorem poll_completed_step (b : Backend) (tid : String) (attempt f : Nat) (r : JVal)
    (hsr : b.statusResponse attempt = .ok r)
    (hc : fieldIsStr r "status" "completed" = true) :
    pollForResults b tid attempt (f + 1)
      = (resultOutcome b, [.statusCall tid (.ok r), .resultCall tid]) := by
  simp only [pollForResults]
  rw [hsr]
  simp only [hc, if_true]
  cases hres : b.resultResponse <;> simp [resultOutcome, hres]

theorem poll_failed_step (b : Backend) (tid : String) (attempt f : Nat) (r : JVal)
    (hsr : b.statusResponse attempt = .ok r)
    (hc : fieldIsStr r "status" "completed" = false)
    (hf : fieldIsStr r "status" "failed" = true) :
    pollForResults b tid attempt (f + 1)
      = (.err (.taskFailed (failMessage r)), [.statusCall tid (.ok r)]) := by
  simp only [pollForResults]
  rw [hsr]
  simp [hc, hf]

theorem poll_running_step (b : Backend) (tid : String) (attempt f : Nat) (r : JVal)
    (hsr : b.statusResponse attempt = .ok r)
    (hc : fieldIsStr r "status" "completed" = false)
    (hf : fieldIsStr r "status" "failed" = false) :
    pollForResults b tid attempt (f + 1)
      = ((pollForResults b tid (attempt + 1) f).1,
         .statusCall tid (.ok r) :: .wait 2000 :: (pollForResults b tid (attempt + 1) f).2) := by
  simp only [pollForResults]
  rw [hsr]
  simp [hc, hf]

theorem poll_skip (b : Backend) (tid : String) :
    ∀ (k attempt fuel : Nat),
      (∀ i, i < k → respNonTerminal (b.statusResponse (attempt + i)) = true) → k ≤ fuel →
      pollForResults b tid attempt fuel
        = ((pollForResults b tid (attempt + k) (fuel - k)).1,
           runTrace b tid attempt k ++ (pollForResults b tid (attempt + k) (fuel - k)).2) := by
  intro k
  induction k with
  | zero =>
      intro attempt fuel _ _
      simp [runTrace]
  | succ k ih =>
      intro attempt fuel hrun hk
      cases fuel with
      | zero => omega
      | succ f =>
          have h0 := hrun 0 (by omega)
          simp only [Nat.add_zero] at h0
          cases hsr : b.statusResponse attempt with
          | error e =>
              rw [hsr] at h0
              simp [respNonTerminal] at h0
          | ok r =>
              rw [hsr] at h0
              simp only [respNonTerminal, Bool.and_eq_true, Bool.not_eq_true'] at h0
              obtain ⟨hc, hf⟩ := h0
              have hrec := ih (attempt + 1) f
                (fun i hi => by
                  have h2 := hrun (i + 1) (by omega)
                  have e3 : attempt + (i + 1) = attempt + 1 + i := by omega
                  rw [e3] at h2
                  exact h2)
                (by omega)
              rw [poll_running_step b tid attempt f r hsr hc hf, hrec]
              have e1 : attempt + (k + 1) = attempt + 1 + k := by omega
              have e2 : f + 1 - (k + 1) = f - k := by omega
              rw [e1, e2]
              simp [runTrace, hsr]

theorem poll_noResultBeforeCompleted (b : Backend) (tid : String) :
    ∀ (fuel attempt : Nat), noResultBeforeCompleted (pollForResults b tid attempt fuel).2 := by
  intro fuel
  induction fuel with
  | zero =>
      intro attempt i tid' hi
      simp [pollForResults] at hi
  | succ fuel ih =>
      intro attempt i tid' hi
      cases hsr : b.statusResponse attempt with
      | error e =>
          rw [poll_error_step b tid attempt fuel e hsr] at hi
          cases i with
          | zero => simp at hi
          | succ i => simp at hi
      | ok r =>
          by_cases hcomp : fieldIsStr r "status" "completed" = true
          · rw [poll_completed_step b tid attempt fuel r hsr hcomp] at hi ⊢
            cases i with
            | zero => simp at hi
            | succ i =>
                cases i with
                | zero =>
                    refine ⟨0, by omega, .statusCall tid (.ok r), by simp, ?_⟩
                    simp [isCompletedStatus, hcomp]
                | succ i => simp at hi
          · by_cases hfail : fieldIsStr r "status" "failed" = true
            · rw [poll_failed_step b tid attempt fuel r hsr
                (by simp only [Bool.not_eq_true] at hcomp; exact hcomp) hfail] at hi
              cases i with
              | zero => simp at hi
              | succ i => simp at hi
            · rw [poll_running_step b tid attempt fuel r hsr
                (by simp only [Bool.not_eq_true] at hcomp; exact hcomp)
                (by simp only [Bool.not_eq_true] at hfail; exact hfail)] at hi ⊢
              cases i with
              | zero => simp at hi
              | succ i =>
                  cases i with
                  | zero => simp at hi
                  | succ i =>
                      simp only [List.getElem?_cons_succ] at hi
                      obtain ⟨j, hj, e2, hje, hce⟩ := ih (attempt + 1) i tid' hi
                      refine ⟨j + 2, by omega, e2, ?_, hce⟩
                      simpa using hje

theorem poll_waitBeforeRepoll (b : Backend) (tid : String) :
    ∀ (fuel attempt : Nat), waitBeforeRepoll (pollForResults b tid attempt fuel).2 := by
  intro fuel
  induction fuel with
  | zero =>
      intro attempt i tid' r' hi
      simp [pollForResults] at hi
  | succ fuel ih =>
      intro attempt i tid' r' hi
      cases hsr : b.statusResponse attempt with
      | error e =>
          rw [poll_error_step b tid attempt fuel e hsr] at hi ⊢
          simp at hi
      | ok r =>
          by_cases hcomp : fieldIsStr r "status" "completed" = true
          · rw [poll_completed_step b tid attempt fuel r hsr hcomp] at hi ⊢
            cases i with
            | zero => simp at hi
            | succ i => simp at hi
          · by_cases hfail : fieldIsStr r "status" "failed" = true
            · rw [poll_failed_step b tid attempt fuel r hsr
                (by simp only [Bool.not_eq_true] at hcomp; exact hcomp) hfail] at hi ⊢
              simp at hi
            · rw [poll_running_step b tid attempt fuel r hsr
                (by simp only [Bool.not_eq_true] at hcomp; exact hcomp)
                (by simp only [Bool.not_eq_true] at hfail; exact hfail)] at hi ⊢
              cases i with
              | zero => simp at hi
              | succ i =>
                  cases i with
                  | zero => simp
                  | succ i =>
                      simp only [List.getElem?_cons_succ] at hi ⊢
                      exact ih (attempt + 1) i tid' r' hi

theorem executeTask_async (b : Backend) (endpoint : String) (payload : JVal) (fuel : Nat)
    (resp tid : JVal)
    (hsub : b.submitResponse = .ok resp)
    (htid : getField resp "task_id" = some tid)
    (htr : jsTruthy tid = true) :
    executeTask b endpoint payload fuel
      = ((pollForResults b (taskIdString tid) 0 fuel).1,
         .submitCall endpoint payload :: (pollForResults b (taskIdString tid) 0 fuel).2) := by
  unfold executeTask
  rw [hsub]
  simp [htid, htr]

theorem runTrace_no_result (b : Backend) (tid : String) :
    ∀ (k attempt : Nat), ∀ e ∈ runTrace b tid attempt k, isResultEvent e = false := by
  intro k
  induction k with
  | zero => intro attempt e he; simp [runTrace] at he
  | succ k ih =>
      intro attempt e he
      simp only [runTrace, List.mem_cons] at he
      rcases he with rfl | rfl | he
      · rfl
      · rfl
      · exact ih (attempt + 1) e he

theorem no_result_event_getElem {tr : List Event}
    (h : ∀ e ∈ tr, isResultEvent e = false) :
    ∀ (i : Nat) (tid2 : String), tr[i]? ≠ some (.resultCall tid2) := by
  intro i tid2 hc
  have hmem : Event.resultCall tid2 ∈ tr := by
    have := List.getElem?_eq_some_iff.mp hc
    obtain ⟨hlt, heq⟩ := this
    exact heq ▸ List.getElem_mem hlt
  have := h _ hmem
  simp [isResultEvent] at this

theorem noResultBefore_cons {e : Event} {tr : List Event}
    (he : isResultEvent e = false) (h : noResultBeforeCompleted tr) :
    noResultBeforeCompleted (e :: tr) := by
  intro i tid hi
  cases i with
  | zero =>
      simp only [List.getElem?_cons_zero, Option.some.injEq] at hi
      rw [hi] at he
      simp [isResultEvent] at he
  | succ i =>
      simp only [List.getElem?_cons_succ] at hi
      obtain ⟨j, hj, e2, hje, hce⟩ := h i tid hi
      exact ⟨j + 1, by omega, e2, by simpa using hje, hce⟩

theorem fieldIsStr_unique {v : JVal} {k s1 s2 : String}
    (h : fieldIsStr v k s1 = true) (hne : s1 ≠ s2) : fieldIsStr v k s2 = false := by
  cases hg : getField v k with
  | none => simp [fieldIsStr, hg] at h
  | some w => cases w <;> simp_all [fieldIsStr, hg]

theorem failMessage_backend {r : JVal} {m : String}
    (h : getField r "error" = some (.str m)) (hne : m ≠ "") :
    failMessage r = .str m := by
  unfold failMessage jsOr
  rw [h]
  simp [jsTruthy, hne]

theorem failMessage_generic {r : JVal} (h : getField r "error" = none) :
    failMessage r = .str "Task failed" := by
  unfold failMessage jsOr
  rw [h]
  simp [jsTruthy]

/-! ## Session identity (`SessionProvider` / `useSession`) -/

/-- The context value held by one `SessionProvider` instance. -/
structure SessionContextType where
  userId : String
  sessionId : String

/-- The provider's initial state:
`useState("user_" + <random suffix>)` and
`useState("session_" + <random suffix>)`; the pseudo-random suffixes
are parameters of the model. -/
def sessionInit (r1 r2 : String) : SessionContextType :=
  { userId := "user_" ++ r1, sessionId := "session_" ++ r2 }

/-- The setters exposed through the context. -/
inductive SessionOp where
  | setUserId (id : String)
  | setSessionId (id : String)

/-- One `setUserId`/`setSessionId` call (React state update). -/
def applySessionOp (s : SessionContextType) : SessionOp → SessionContextType
  | .setUserId id => { s with userId := id }
  | .setSessionId id => { s with sessionId := id }

/-- A sequence of setter calls within one provider lifetime. -/
def applySessionOps (s : SessionContextType) (ops : List SessionOp) : SessionContextType :=
  ops.foldl applySessionOp s

/-- Reading the context: returns the identifier pair and leaves the
provider state unchanged. -/
def getSession (s : SessionContextType) : (String × String) × SessionContextType :=
  ((s.userId, s.sessionId), s)

/-- `useSession`: `useContext` yields `undefined` (`none`) outside a
provider, and the hook then throws the uninitialized-context error. -/
def useSession : Option SessionContextType → Except String SessionContextType
  | none => .error "useSession must be used within a SessionProvider"
  | some ctx => .ok ctx

theorem jsonStringify_ne_empty (v : JVal) : jsonStringify v ≠ "" := by
  obtain ⟨h, t, hv, _, _⟩ := printJVal_head v
  unfold jsonStringify
  intro hcontra
  have hdata : printJVal v = [] := congrArg String.data hcontra
  rw [hv] at hdata
  exact List.noConfusion hdata

theorem loadFromDiscoverer_publish (s : Store) (d : JVal) (q t : String) (es : JArr)
    (h : getField d "articles" = some (.arr es)) (v : JVal) (tl : JArr)
    (he : es = .cons v tl) :
    loadFromDiscoverer (publishDiscovered s d q t) = some es := by
  subst he
  have k1 : ¬(articlesKey = atKey) := by decide
  have k2 : ¬(articlesKey = queryKey) := by decide
  simp only [loadFromDiscoverer, publishDiscovered, getItem, setItem, h, k1, k2, if_false,
    if_pos rfl, if_true]
  rw [if_neg (jsonStringify_ne_empty _), jsonParse_stringify (.arr (.cons v tl))]

/-! ## Claim theorems -/

/-- **C2**: for every submission whose initial response contains no
`task_id` field, `executeTask` returns exactly that initial response
object and issues no task-status or task-result calls. -/
theorem executeTask_sync_no_task_id (b : Backend) (endpoint : String) (payload : JVal)
    (fuel : Nat) (resp : JVal)
    (hsub : b.submitResponse = .ok resp)
    (htid : getField resp "task_id" = none) :
    executeTask b endpoint payload fuel = (.ok resp, [.submitCall endpoint payload])
    ∧ ∀ e ∈ (executeTask b endpoint payload fuel).2,
        isStatusEvent e = false ∧ isResultEvent e = false := by
  have h1 : executeTask b endpoint payload fuel = (.ok resp, [.submitCall endpoint payload]) := by
    unfold executeTask
    rw [hsub]
    simp [htid]
  refine ⟨h1, ?_⟩
  rw [h1]
  intro e he
  simp only [List.mem_singleton] at he
  subst he
  exact ⟨rfl, rfl⟩

/-- **C10**: when the initial response carries a `task_id` field whose
value is falsy (empty string, `0`, `null`, or `false`), `executeTask`
treats the operation as synchronous: it returns the response unchanged
and issues no status or result calls. -/
theorem executeTask_falsy_task_id (b : Backend) (endpoint : String) (payload : JVal)
    (fuel : Nat) (resp tid : JVal)
    (hsub : b.submitResponse = .ok resp)
    (htid : getField resp "task_id" = some tid)
    (hfal : jsTruthy tid = false) :
    executeTask b endpoint payload fuel = (.ok resp, [.submitCall endpoint payload])
    ∧ ∀ e ∈ (executeTask b endpoint payload fuel).2,
        isStatusEvent e = false ∧ isResultEvent e = false := by
  have h1 : executeTask b endpoint payload fuel = (.ok resp, [.submitCall endpoint payload]) := by
    unfold executeTask
    rw [hsub]
    simp [htid, hfal]
  refine ⟨h1, ?_⟩
  rw [h1]
  intro e he
  simp only [List.mem_singleton] at he
  subst he
  exact ⟨rfl, rfl⟩

/-- **C5**: a response with status ≥ 400 makes `apiCall` fail with a
transport error carrying the status code and status text, regardless of
body; a success-status response yields its parsed JSON body; a
malformed success body yields the decode failure, which is distinct
from every transport error. -/
theorem apiCall_status_errors (r : HttpResponse) :
    (400 ≤ r.status → apiCall r = .error (.transport r.status r.statusText))
    ∧ (responseOk r = true → ∀ v, r.body = some v → apiCall r = .ok v)
    ∧ (responseOk r = true → r.body = none → apiCall r = .error .decode)
    ∧ (∀ (st : Nat) (tx : String), ApiError.decode ≠ ApiError.transport st tx) := by
  refine ⟨?_, ?_, ?_, ?_⟩
  · intro h400
    have hok : responseOk r = false := by
      have h1 : ¬(r.status ≤ 299) := by omega
      simp [responseOk, h1]
    unfold apiCall
    rw [hok]
    simp
  · intro hok v hv
    unfold apiCall
    rw [hok, hv]
    simp
  · intro hok hv
    unfold apiCall
    rw [hok, hv]
    simp
  · intro st tx hc
    exact ApiError.noConfusion hc

/-- **C3** (code-bug evidence): when the caller supplies its own
`headers`, the trailing `...options` spread in `apiCall`'s fetch-init
literal replaces the merged headers object wholesale, so the request
does not carry the default `Content-Type: application/json` — even
though the inner (dead) merge expression would have kept it.  Without
caller headers the default survives. -/
theorem apiCall_headers_clobbered :
    lookupHeader (fetchHeaders { headers := some [("Authorization", "Bearer abc")] })
        "Content-Type" = none
    ∧ lookupHeader (mergedHeaders { headers := some [("Authorization", "Bearer abc")] })
        "Content-Type" = some "application/json"
    ∧ fetchHeaders { method := some "POST", body := some "x" }
        = [("Content-Type", "application/json")]
    ∧ lookupHeader (fetchHeaders { method := some "POST", body := some "x" })
        "Content-Type" = some "application/json" :=
  ⟨rfl, rfl, rfl, rfl⟩

/-- **C7**: fetching the latest artifact under a name never published,
or whose stored string does not parse as JSON, yields the absent
sentinel (`none`) — `loadFromDiscoverer` is a total function, so no
exception reaches the caller. -/
theorem loadFromDiscoverer_absent (s : Store) :
    (getItem s articlesKey = none → loadFromDiscoverer s = none)
    ∧ (∀ raw, getItem s articlesKey = some raw → jsonParse raw = none →
        loadFromDiscoverer s = none) := by
  constructor
  · intro h
    simp [loadFromDiscoverer, h]
  · intro raw h hp
    by_cases hraw : raw = ""
    · simp [loadFromDiscoverer, h, hraw]
    · simp [loadFromDiscoverer, h, hraw, hp]

/-- **C9**: within one provider instance, reads of the session identity
are pure (two consecutive invocations of the getter agree), a setter
followed by a read reflects the override with last-write-wins, and
accessing the identity outside a provider fails with the
uninitialized-context error. -/
theorem session_identity_properties (r1 r2 : String) (s : SessionContextType)
    (ops : List SessionOp) (u sid : String) :
    (getSession (applySessionOps (sessionInit r1 r2) ops)).1
        = (getSession ((getSession (applySessionOps (sessionInit r1 r2) ops)).2)).1
    ∧ (applySessionOps s (ops ++ [.setUserId u])).userId = u
    ∧ (applySessionOps s (ops ++ [.setSessionId sid])).sessionId = sid
    ∧ (getSession (applySessionOp s (.setUserId u))).1.1 = u
    ∧ (getSession (applySessionOp s (.setSessionId sid))).1.2 = sid
    ∧ useSession none = .error "useSession must be used within a SessionProvider"
    ∧ ∀ ctx, useSession (some ctx) = .ok ctx := by
  refine ⟨rfl, ?_, ?_, rfl, rfl, rfl, fun ctx => rfl⟩
  · simp [applySessionOps, List.foldl_append, applySessionOp]
  · simp [applySessionOps, List.foldl_append, applySessionOp]

/-- **C1**: for an asynchronous submission (truthy `task_id` in the
initial response), `executeTask` polls the task status repeatedly with
the fixed 2000 ms wait between consecutive status calls, never issues a
task-result call before a `completed` status response has been
observed, and — when the first `k` statuses are non-terminal and the
`k`-th reports `completed` — performs exactly `k+1` status calls
followed by the single result call. -/
theorem executeTask_poll_protocol (b : Backend) (endpoint : String) (payload : JVal)
    (fuel : Nat) (resp tid : JVal)
    (hsub : b.submitResponse = .ok resp)
    (htid : getField resp "task_id" = some tid)
    (htr : jsTruthy tid = true) :
    (executeTask b endpoint payload fuel).2
        = .submitCall endpoint payload :: (pollForResults b (taskIdString tid) 0 fuel).2
    ∧ noResultBeforeCompleted (executeTask b endpoint payload fuel).2
    ∧ waitBeforeRepoll (pollForResults b (taskIdString tid) 0 fuel).2
    ∧ ∀ k, k < fuel →
        (∀ i, i < k → respNonTerminal (b.statusResponse i) = true) →
        respStatusIs (b.statusResponse k) "completed" = true →
        executeTask b endpoint payload fuel
          = (resultOutcome b,
             .submitCall endpoint payload :: runTrace b (taskIdString tid) 0 k
               ++ [.statusCall (taskIdString tid) (b.statusResponse k),
                   .resultCall (taskIdString tid)]) := by
  have ha := executeTask_async b endpoint payload fuel resp tid hsub htid htr
  refine ⟨by rw [ha], ?_, poll_waitBeforeRepoll b (taskIdString tid) fuel 0, ?_⟩
  · rw [ha]
    exact noResultBefore_cons rfl (poll_noResultBeforeCompleted b (taskIdString tid) fuel 0)
  · intro k hk hrun hcomp
    have hskip := poll_skip b (taskIdString tid) k 0 fuel
      (fun i hi => by simpa using hrun i hi) (by omega)
    obtain ⟨f2, hf2⟩ : ∃ f2, fuel - k = f2 + 1 := ⟨fuel - k - 1, by omega⟩
    cases hsr : b.statusResponse k with
    | error e =>
        rw [hsr] at hcomp
        simp [respStatusIs] at hcomp
    | ok r =>
        rw [hsr] at hcomp
        simp only [respStatusIs] at hcomp
        have hstep := poll_completed_step b (taskIdString tid) k f2 r hsr hcomp
        rw [ha, hskip]
        simp only [Nat.zero_add]
        rw [hf2, hstep]
        simp

/-- **C4**: when a reachable poll attempt's status response reports
`failed`, `executeTask` fails with a task failure carrying the
backend-supplied error message (or `'Task failed'` when the response
has no error field), and the trace contains no task-result call. -/
theorem executeTask_task_failure (b : Backend) (endpoint : String) (payload : JVal)
    (fuel : Nat) (resp tid : JVal) (k : Nat)
    (hsub : b.submitResponse = .ok resp)
    (htid : getField resp "task_id" = some tid)
    (htr : jsTruthy tid = true)
    (hk : k < fuel)
    (hrun : ∀ i, i < k → respNonTerminal (b.statusResponse i) = true)
    (hfail : respStatusIs (b.statusResponse k) "failed" = true) :
    (∀ r, b.statusResponse k = .ok r →
        (executeTask b endpoint payload fuel).1 = .err (.taskFailed (failMessage r))
        ∧ (∀ m, getField r "error" = some (.str m) → m ≠ "" →
            (executeTask b endpoint payload fuel).1 = .err (.taskFailed (.str m)))
        ∧ (getField r "error" = none →
            (executeTask b endpoint payload fuel).1
              = .err (.taskFailed (.str "Task failed"))))
    ∧ ∀ (i : Nat) (tid2 : String),
        (executeTask b endpoint payload fuel).2[i]? ≠ some (.resultCall tid2) := by
  have ha := executeTask_async b endpoint payload fuel resp tid hsub htid htr
  obtain ⟨f2, hf2⟩ : ∃ f2, fuel - k = f2 + 1 := ⟨fuel - k - 1, by omega⟩
  cases hsr : b.statusResponse k with
  | error e =>
      rw [hsr] at hfail
      simp [respStatusIs] at hfail
  | ok r0 =>
      have hfail2 : fieldIsStr r0 "status" "failed" = true := by
        rw [hsr] at hfail
        simpa [respStatusIs] using hfail
      have hcomp : fieldIsStr r0 "status" "completed" = false :=
        fieldIsStr_unique hfail2 (by decide)
      have hskip := poll_skip b (taskIdString tid) k 0 fuel
        (fun i hi => by simpa using hrun i hi) (by omega)
      have hstep := poll_failed_step b (taskIdString tid) k f2 r0 hsr hcomp hfail2
      have hfull : executeTask b endpoint payload fuel
          = (.err (.taskFailed (failMessage r0)),
             .submitCall endpoint payload :: runTrace b (taskIdString tid) 0 k
               ++ [.statusCall (taskIdString tid) (.ok r0)]) := by
        rw [ha, hskip]
        simp only [Nat.zero_add]
        rw [hf2, hstep]
        simp
      constructor
      · intro r hr
        have hrr : r0 = r := Except.ok.inj hr
        subst hrr
        refine ⟨by rw [hfull], ?_, ?_⟩
        · intro m hm hmne
          rw [hfull]
          simp [failMessage_backend hm hmne]
        · intro hnone
          rw [hfull]
          simp [failMessage_generic hnone]
      · rw [hfull]
        apply no_result_event_getElem
        intro e he
        simp only [List.cons_append, List.mem_cons, List.mem_append,
          List.mem_singleton] at he
        rcases he with rfl | he | rfl | h0
        · rfl
        · exact runTrace_no_result b (taskIdString tid) k 0 e he
        · rfl
        · simp at h0

/-- **C8**: the poll loop has no built-in attempt bound: for a backend
whose status responses are all non-terminal, and for every `n`,
unrolling `n+1` poll attempts shows `executeTask` issuing more than `n`
status calls while still polling (it has neither returned nor
failed). -/
theorem executeTask_unbounded (b : Backend) (endpoint : String) (payload : JVal)
    (resp tid : JVal)
    (hsub : b.submitResponse = .ok resp)
    (htid : getField resp "task_id" = some tid)
    (htr : jsTruthy tid = true)
    (hrun : ∀ i, respNonTerminal (b.statusResponse i) = true) :
    ∀ n : Nat, n < countStatusCalls (executeTask b endpoint payload (n + 1)).2
      ∧ (executeTask b endpoint payload (n + 1)).1 = .polling := by
  intro n
  have ha := executeTask_async b endpoint payload (n + 1) resp tid hsub htid htr
  have hskip := poll_skip b (taskIdString tid) (n + 1) 0 (n + 1)
    (fun i _ => hrun (0 + i)) (le_refl _)
  have hz : pollForResults b (taskIdString tid) (0 + (n + 1)) ((n + 1) - (n + 1))
      = (.polling, []) := by
    have he : (n + 1) - (n + 1) = 0 := by omega
    rw [he]
    rfl
  rw [hz] at hskip
  constructor
  · rw [ha]
    simp only [hskip, List.append_nil]
    have hc := countStatusCalls_runTrace b (taskIdString tid) (n + 1) 0
    simp only [countStatusCalls, List.filter_cons, isStatusEvent] at hc ⊢
    simp [hc]
  · rw [ha]
    simp [hskip]

/-- **C6** (counterexample to the claim as stated): publishing the
empty article list and immediately fetching does not return the empty
list — the loader treats an empty stored array as "no discovered
articles" and yields the absent sentinel. -/
theorem publish_empty_fetch_absent :
    loadFromDiscoverer
        (publishDiscovered emptyStore
          (.obj (.ocons "articles" (.arr .nil) .onil)) "AI companies" "2026-10-11")
      = none
    ∧ loadFromDiscoverer
        (publishDiscovered emptyStore
          (.obj (.ocons "articles" (.arr .nil) .onil)) "AI companies" "2026-10-11")
      ≠ some JArr.nil := by
  have h : loadFromDiscoverer
      (publishDiscovered emptyStore
        (.obj (.ocons "articles" (.arr .nil) .onil)) "AI companies" "2026-10-11")
      = none := rfl
  refine ⟨h, ?_⟩
  rw [h]
  simp

/-- **C6** (amended): publishing a non-empty discovered article list
followed immediately by fetching returns a deeply-equal list, and each
publish overwrites the prior value (a second publish wins). -/
theorem publish_fetch_roundtrip (s : Store) (d1 d2 : JVal) (q1 q2 t1 t2 : String)
    (es1 es2 : JArr)
    (h1 : getField d1 "articles" = some (.arr es1))
    (h2 : getField d2 "articles" = some (.arr es2)) :
    (∀ v tl, es1 = .cons v tl →
        loadFromDiscoverer (publishDiscovered s d1 q1 t1) = some es1)
    ∧ (∀ v tl, es2 = .cons v tl →
        loadFromDiscoverer
          (publishDiscovered (publishDiscovered s d1 q1 t1) d2 q2 t2) = some es2) := by
  constructor
  · intro v tl he
    exact loadFromDiscoverer_publish s d1 q1 t1 es1 h1 v tl he
  · intro v tl he
    exact loadFromDiscoverer_publish (publishDiscovered s d1 q1 t1) d2 q2 t2 es2 h2 v tl he

/-! ## Concrete scenarios for the witnesses -/

/-- An asynchronous submission response: `(task_id: "t1")`. -/
def respAsync : JVal := .obj (.ocons "task_id" (.str "t1") .onil)

/-- A synchronous submission response (no `task_id` field). -/
def respSync : JVal := .obj (.ocons "status" (.str "success") .onil)

/-- A failed task-status response carrying a backend error message. -/
def respFailed : JVal :=
  .obj (.ocons "status" (.str "failed") (.ocons "error" (.str "timeout upstream") .onil))

/-- A backend that answers the submission with `r` (used for the
synchronous scenarios, where the poll endpoints are never reached). -/
def cbOf (r : JVal) : Backend :=
  { submitResponse := .ok r
    statusResponse := fun _ => .ok .null
    resultResponse := .ok .null }

/-- Async scenario: one `running` status, then `completed`, then a
result document. -/
def cbAsync : Backend :=
  { submitResponse := .ok respAsync
    statusResponse := fun n =>
      if n = 0 then .ok (.obj (.ocons "status" (.str "running") .onil))
      else .ok (.obj (.ocons "status" (.str "completed") .onil))
    resultResponse := .ok (.obj (.ocons "total_found" (.num 3) .onil)) }

/-- Async scenario whose first status poll reports `failed`. -/
def cbFail : Backend :=
  { submitResponse := .ok respAsync
    statusResponse := fun _ => .ok respFailed
    resultResponse := .ok .null }

/-- Async scenario whose status polls report `running` forever. -/
def cbRun : Backend :=
  { submitResponse := .ok respAsync
    statusResponse := fun _ => .ok (.obj (.ocons "status" (.str "running") .onil))
    resultResponse := .ok .null }

/-- Submission response with a falsy `task_id`: empty string. -/
def respFalsyStr : JVal := .obj (.ocons "task_id" (.str "") .onil)

/-- Submission response with a falsy `task_id`: the number `0`. -/
def respFalsyNum : JVal := .obj (.ocons "task_id" (.num 0) .onil)

/-- Submission response with a falsy `task_id`: `null`. -/
def respFalsyNull : JVal := .obj (.ocons "task_id" .null .onil)

/-- Submission response with a falsy `task_id`: `false`. -/
def respFalsyBool : JVal := .obj (.ocons "task_id" (.boolean false) .onil)

/-- A 404 response (body content irrelevant). -/
def r404 : HttpResponse := { status := 404, statusText := "Not Found", body := some (.str "ignored") }

/-- A success response with a JSON body. -/
def r200 : HttpResponse := { status := 200, statusText := "OK", body := some respSync }

/-- A success response whose body is not valid JSON. -/
def rBad : HttpResponse := { status := 200, statusText := "OK", body := none }

/-- A store holding a corrupted (non-JSON) artifact string. -/
def corruptStore : Store := setItem emptyStore articlesKey "not json"

/-- Discovery payload data with one article. -/
def dataA : JVal := .obj (.ocons "articles" (.arr (.cons (.str "a1") .nil)) .onil)

/-- Discovery payload data with two articles. -/
def dataB : JVal :=
  .obj (.ocons "articles" (.arr (.cons (.num 1) (.cons (.num 2) .nil))) .onil)

/-! ## Witnesses -/

/-- Witness for **C2** at a concrete synchronous backend. -/
theorem executeTask_sync_no_task_id_witness :
    (cbOf respSync).submitResponse = .ok respSync
    ∧ getField respSync "task_id" = none
    ∧ executeTask (cbOf respSync) "/classify" .null 3
        = (.ok respSync, [.submitCall "/classify" .null])
    ∧ ∀ e ∈ (executeTask (cbOf respSync) "/classify" .null 3).2,
        isStatusEvent e = false ∧ isResultEvent e = false :=
  ⟨rfl, rfl,
    (executeTask_sync_no_task_id (cbOf respSync) "/classify" .null 3 respSync rfl rfl).1,
    (executeTask_sync_no_task_id (cbOf respSync) "/classify" .null 3 respSync rfl rfl).2⟩

/-- Witness for **C10** at all four falsy `task_id` values. -/
theorem executeTask_falsy_task_id_witness :
    (getField respFalsyStr "task_id" = some (.str "") ∧ jsTruthy (.str "") = false
      ∧ executeTask (cbOf respFalsyStr) "/e" .null 2
          = (.ok respFalsyStr, [.submitCall "/e" .null]))
    ∧ (getField respFalsyNum "task_id" = some (.num 0) ∧ jsTruthy (.num 0) = false
      ∧ executeTask (cbOf respFalsyNum) "/e" .null 2
          = (.ok respFalsyNum, [.submitCall "/e" .null]))
    ∧ (getField respFalsyNull "task_id" = some .null ∧ jsTruthy .null = false
      ∧ executeTask (cbOf respFalsyNull) "/e" .null 2
          = (.ok respFalsyNull, [.submitCall "/e" .null]))
    ∧ (getField respFalsyBool "task_id" = some (.boolean false)
      ∧ jsTruthy (.boolean false) = false
      ∧ executeTask (cbOf respFalsyBool) "/e" .null 2
          = (.ok respFalsyBool, [.submitCall "/e" .null])) :=
  ⟨⟨rfl, rfl,
      (executeTask_falsy_task_id (cbOf respFalsyStr) "/e" .null 2 respFalsyStr (.str "")
        rfl rfl rfl).1⟩,
    ⟨rfl, rfl,
      (executeTask_falsy_task_id (cbOf respFalsyNum) "/e" .null 2 respFalsyNum (.num 0)
        rfl rfl rfl).1⟩,
    ⟨rfl, rfl,
      (executeTask_falsy_task_id (cbOf respFalsyNull) "/e" .null 2 respFalsyNull .null
        rfl rfl rfl).1⟩,
    ⟨rfl, rfl,
      (executeTask_falsy_task_id (cbOf respFalsyBool) "/e" .null 2 respFalsyBool
        (.boolean false) rfl rfl rfl).1⟩⟩

/-- Witness for **C5** at concrete 404 / ok / malformed responses. -/
theorem apiCall_status_errors_witness :
    (400 ≤ r404.status ∧ apiCall r404 = .error (.transport 404 "Not Found"))
    ∧ (responseOk r200 = true ∧ r200.body = some respSync ∧ apiCall r200 = .ok respSync)
    ∧ (responseOk rBad = true ∧ rBad.body = none ∧ apiCall rBad = .error .decode)
    ∧ ApiError.decode ≠ ApiError.transport 404 "Not Found" :=
  ⟨⟨by decide, (apiCall_status_errors r404).1 (by decide)⟩,
    ⟨rfl, rfl, (apiCall_status_errors r200).2.1 rfl respSync rfl⟩,
    ⟨rfl, rfl, (apiCall_status_errors rBad).2.2.1 rfl rfl⟩,
    (apiCall_status_errors r404).2.2.2 404 "Not Found"⟩

/-- Witness for **C7**: an empty store and a corrupted store. -/
theorem loadFromDiscoverer_absent_witness :
    (getItem emptyStore articlesKey = none ∧ loadFromDiscoverer emptyStore = none)
    ∧ (getItem corruptStore articlesKey = some "not json"
      ∧ jsonParse "not json" = none
      ∧ loadFromDiscoverer corruptStore = none) :=
  ⟨⟨rfl, (loadFromDiscoverer_absent emptyStore).1 rfl⟩,
    ⟨rfl, rfl, (loadFromDiscoverer_absent corruptStore).2 "not json" rfl rfl⟩⟩

/-- Witness for **C6** (amended): concrete publish/fetch round trips,
including an overwrite. -/
theorem publish_fetch_roundtrip_witness :
    getField dataA "articles" = some (.arr (.cons (.str "a1") .nil))
    ∧ getField dataB "articles" = some (.arr (.cons (.num 1) (.cons (.num 2) .nil)))
    ∧ loadFromDiscoverer (publishDiscovered emptyStore dataA "q1" "t1")
        = some (.cons (.str "a1") .nil)
    ∧ loadFromDiscoverer
        (publishDiscovered (publishDiscovered emptyStore dataA "q1" "t1") dataB "q2" "t2")
        = some (.cons (.num 1) (.cons (.num 2) .nil)) := by
  have h := publish_fetch_roundtrip emptyStore dataA dataB "q1" "q2" "t1" "t2"
    (.cons (.str "a1") .nil) (.cons (.num 1) (.cons (.num 2) .nil)) rfl rfl
  exact ⟨rfl, rfl, h.1 _ _ rfl, h.2 _ _ rfl⟩

/-- Witness for **C8** at the always-running backend. -/
theorem executeTask_unbounded_witness :
    cbRun.submitResponse = .ok respAsync
    ∧ getField respAsync "task_id" = some (.str "t1")
    ∧ jsTruthy (.str "t1") = true
    ∧ (∀ i, respNonTerminal (cbRun.statusResponse i) = true)
    ∧ ∀ n : Nat, n < countStatusCalls (executeTask cbRun "/summarize" .null (n + 1)).2
        ∧ (executeTask cbRun "/summarize" .null (n + 1)).1 = .polling :=
  ⟨rfl, rfl, rfl, fun _ => rfl,
    executeTask_unbounded cbRun "/summarize" .null respAsync (.str "t1") rfl rfl rfl
      (fun _ => rfl)⟩

/-- Witness for **C4** at a backend whose first status poll fails with
`error: "timeout upstream"`. -/
theorem executeTask_task_failure_witness :
    cbFail.submitResponse = .ok respAsync
    ∧ getField respAsync "task_id" = some (.str "t1")
    ∧ jsTruthy (.str "t1") = true
    ∧ (0 : Nat) < 1
    ∧ respStatusIs (cbFail.statusResponse 0) "failed" = true
    ∧ getField respFailed "error" = some (.str "timeout upstream")
    ∧ (executeTask cbFail "/api/news/exporter" .null 1).1
        = .err (.taskFailed (.str "timeout upstream"))
    ∧ ∀ (i : Nat) (tid2 : String),
        (executeTask cbFail "/api/news/exporter" .null 1).2[i]? ≠ some (.resultCall tid2) := by
  have h := executeTask_task_failure cbFail "/api/news/exporter" .null 1 respAsync
    (.str "t1") 0 rfl rfl rfl (by omega) (fun i hi => absurd hi (by omega)) rfl
  exact ⟨rfl, rfl, rfl, by omega, rfl, rfl,
    (h.1 respFailed rfl).2.1 "timeout upstream" rfl (by decide), h.2⟩

/-- Witness for **C1** at the running-then-completed backend. -/
theorem executeTask_poll_protocol_witness :
    cbAsync.submitResponse = .ok respAsync
    ∧ getField respAsync "task_id" = some (.str "t1")
    ∧ jsTruthy (.str "t1") = true
    ∧ ((executeTask cbAsync "/api/news/discoverer" .null 5).2
        = .submitCall "/api/news/discoverer" .null
            :: (pollForResults cbAsync (taskIdString (.str "t1")) 0 5).2
      ∧ noResultBeforeCompleted (executeTask cbAsync "/api/news/discoverer" .null 5).2
      ∧ waitBeforeRepoll (pollForResults cbAsync (taskIdString (.str "t1")) 0 5).2
      ∧ ∀ k, k < 5 →
          (∀ i, i < k → respNonTerminal (cbAsync.statusResponse i) = true) →
          respStatusIs (cbAsync.statusResponse k) "completed" = true →
          executeTask cbAsync "/api/news/discoverer" .null 5
            = (resultOutcome cbAsync,
               .submitCall "/api/news/discoverer" .null
                 :: runTrace cbAsync (taskIdString (.str "t1")) 0 k
                 ++ [.statusCall (taskIdString (.str "t1")) (cbAsync.statusResponse k),
                     .resultCall (taskIdString (.str "t1"))])) :=
  ⟨rfl, rfl, rfl,
    executeTask_poll_protocol cbAsync "/api/news/discoverer" .null 5 respAsync (.str "t1")
      rfl rfl rfl⟩
